import Mathlib

/-!
# census2csv — filter-and-aggregate engine, shallow embedding

A shallow embedding of the core of `census2csv` (`src/main.rs`): the three
aggregation reducers `combine_protein`, `combine_peptide` and `flat_peptide`,
the per-file processing loop of `main`, and — modelled from the spec, since the
`census_proteomics` crate is external to this repository — the data model
(`Dataset`, `Protein`, `Peptide`, `Protein.total`) and the filter model
(`Filter`, its application, and the default empty filter).

Machine integers (`u32`, `usize`) are modelled as `Nat`; intensities are
non-negative and summation cannot overflow in the spec-level model.
A Rust panic (index out of bounds, division by zero, `expect` on a parse
failure) is modelled as `Option.none` so that it is observable.
-/

set_option autoImplicit false
set_option linter.unusedVariables false

namespace Census

/-- A peptide: the grouping key `sequence`, one intensity per channel in
`values`, plus the parser-supplied filterable flags (spec §3). -/
structure Peptide where
  sequence : String
  values : List Nat
  unique : Bool := false
  tryptic : Bool := false
  reverse : Bool := false
  deriving Repr, DecidableEq

/-- A protein (spec §3). `spectral_count` and `sequence_count` are supplied by
the parser and never recomputed. `reverse` is the decoy flag consulted by
`ProteinFilter.ExcludeReverse`. -/
structure Protein where
  accession : String
  description : String
  spectral_count : Nat := 0
  sequence_count : Nat := 0
  reverse : Bool := false
  peptides : List Peptide
  deriving Repr, DecidableEq

/-- A parsed dataset (spec §3): a channel count and an ordered protein list.
Invariant (not enforced by the type): every peptide's `values` has length
`channels`. -/
structure Dataset where
  channels : Nat
  proteins : List Protein
  deriving Repr, DecidableEq

/-- Element-wise sum of a list of channel vectors, starting from the all-zero
vector of length `channels` (accumulation order is the list order). -/
def vecSum (channels : Nat) (vss : List (List Nat)) : List Nat :=
  vss.foldl (fun acc vs => List.zipWith (· + ·) acc vs) (List.replicate channels 0)

/-- Modelled from the spec: `Protein::total()` of the external
`census_proteomics` crate — "element-wise sum of all peptides' channel
vectors, length `channels`" (spec §3). -/
def Protein.total (channels : Nat) (prot : Protein) : List Nat :=
  vecSum channels (prot.peptides.map Peptide.values)

/-- Modelled from the spec: the peptide-level filter variants (spec §4.1).
`ChannelCV` carries a rational threshold; its pass condition compares the
squared coefficient of variation against the squared threshold, which is
equivalent to `CV ≤ t` for `0 ≤ t` and a nonzero mean, and avoids an
irrational square root. -/
inductive PeptideFilter where
  | Unique
  | Tryptic
  | TotalIntensity (threshold : Nat)
  | ChannelIntensity (channel : Nat) (threshold : Nat)
  | ChannelCV (channels : List Nat) (threshold : ℚ)
  deriving Repr, DecidableEq

/-- Modelled from the spec: the protein-level filter variants (spec §4.1). -/
inductive ProteinFilter where
  | ExcludeReverse
  | SequenceCounts (threshold : Nat)
  deriving Repr, DecidableEq

/-- Modelled from the spec: a serializable filter configuration — an ordered
set of peptide filters and protein filters (spec §4.1). -/
structure Filter where
  peptide_filters : List PeptideFilter
  protein_filters : List ProteinFilter
  deriving Repr, DecidableEq

/-- Modelled from the spec: `Filter::default()` — "a Filter with no rules
passes everything (identity transform) — this is the default configuration"
(spec §4.1). -/
def Filter.default : Filter := ⟨[], []⟩

/-- The value at a 1-based channel index, `0` when out of range. -/
def channelValue (values : List Nat) (channel : Nat) : Nat :=
  (values.drop (channel - 1)).headD 0

/-- Modelled from the spec: evaluation of one peptide filter on one peptide
(spec §4.1). A `ChannelCV` filter fails when the mean of the selected
channel values is zero. -/
def peptidePass (pep : Peptide) : PeptideFilter → Bool
  | .Unique => pep.unique
  | .Tryptic => pep.tryptic
  | .TotalIntensity t => t ≤ pep.values.sum
  | .ChannelIntensity c t => t ≤ channelValue pep.values c
  | .ChannelCV cs t =>
    let vals : List ℚ := cs.map (fun c => (channelValue pep.values c : ℚ))
    let n : ℚ := vals.length
    if vals.length = 0 then false
    else
      let mean := vals.sum / n
      if mean = 0 then false
      else
        let variance := (vals.map (fun v => (v - mean) ^ 2)).sum / n
        decide (0 ≤ t) && decide (variance ≤ t ^ 2 * mean ^ 2)

/-- The number of distinct peptide sequences among a list of peptides. -/
def distinctSequences (peptides : List Peptide) : Nat :=
  (peptides.map Peptide.sequence).dedup.length

/-- Modelled from the spec: evaluation of one protein filter on one protein,
after its peptide list has been pruned (spec §4.1). -/
def proteinPass (prot : Protein) : ProteinFilter → Bool
  | .ExcludeReverse => !prot.reverse
  | .SequenceCounts t => t ≤ distinctSequences prot.peptides

/-- Modelled from the spec: `Dataset::filter` of the external crate
(spec §4.2) — retain in each protein the peptides passing every peptide
filter, then retain the proteins passing every protein filter; order is
preserved and `spectral_count` / `sequence_count` are not altered. -/
def Filter.apply (f : Filter) (data : Dataset) : Dataset :=
  { channels := data.channels
    proteins := (data.proteins.map (fun prot =>
      { prot with peptides :=
          prot.peptides.filter (fun pep => f.peptide_filters.all (peptidePass pep)) })).filter
      (fun prot => f.protein_filters.all (proteinPass prot)) }

/-- Checked division: `none` models the Rust panic on unsigned division by
zero, `some (v / k)` is truncating unsigned division otherwise. -/
def cdiv (v k : Nat) : Option Nat :=
  if k = 0 then none else some (v / k)

/-- `optionMap f l` maps a fallible `f` over `l`, failing as soon as one
element fails (the shallow embedding of a Rust loop whose body can panic). -/
def optionMap {α β : Type} (f : α → Option β) : List α → Option (List β)
  | [] => some []
  | a :: l => match f a with
    | none => none
    | some b => (optionMap f l).map (fun bs => b :: bs)

/-- Commas in a description are replaced by semicolons before emission
(`prot.description.replace(",", ";")`). -/
def descEscape (s : String) : String := s.replace "," ";"

/-- One output row of protein-combine mode (`combine_protein`, main.rs 99-107). -/
structure ProteinRow where
  accession : String
  description : String
  spectral_count : Nat
  sequence_count : Nat
  values : List Nat
  deriving Repr, DecidableEq

/-- The channel values of one protein row (main.rs 82-97): `prot.total()`,
each value divided by `prot.peptides.len()` when `average` is set. A zero
peptide count makes the division panic (`none`); with `average` unset the
raw sums are emitted unconditionally. -/
def proteinRowValues (channels : Nat) (average : Bool) (prot : Protein) : Option (List Nat) :=
  if average then optionMap (fun v => cdiv v prot.peptides.length) (Protein.total channels prot)
  else some (Protein.total channels prot)

/-- `combine_protein` (main.rs 57-111) restricted to its data content: one row
per protein of the (already filtered) dataset, in order. -/
def combine_protein (data : Dataset) (average : Bool) : Option (List ProteinRow) :=
  optionMap (fun prot =>
    (proteinRowValues data.channels average prot).map (fun vs =>
      { accession := prot.accession
        description := descEscape prot.description
        spectral_count := prot.spectral_count
        sequence_count := prot.sequence_count
        values := vs }))
    data.proteins

/-- One output row of flat mode (`flat_peptide`, main.rs 137-153). -/
structure FlatRow where
  accession : String
  description : String
  sequence : String
  values : List Nat
  deriving Repr, DecidableEq

/-- `flat_peptide` (main.rs 113-156) restricted to its data content: one row
per peptide of each protein, raw values; the `average` flag is accepted but
never read by the source. -/
def flat_peptide (data : Dataset) (average : Bool) : List FlatRow :=
  (data.proteins.map (fun prot =>
    prot.peptides.map (fun pep =>
      { accession := prot.accession
        description := descEscape prot.description
        sequence := pep.sequence
        values := pep.values : FlatRow }))).flatten

/-- One accumulator entry of `combine_peptide`: the per-sequence summed value
vector (the `map: HashMap<&str, Vec<u32>>` entry) together with the merge
count (the `cnt: HashMap<&str, u32>` entry for the same key). -/
structure Group where
  sequence : String
  values : List Nat
  count : Nat
  deriving Repr, DecidableEq

/-- The inner accumulation loop of `combine_peptide` (main.rs 189-191):
`for (idx, val) in peptide.values.iter().enumerate() { entry[idx] += *val }`.
Entry slots beyond the peptide's vector are left unchanged; a peptide vector
longer than the entry indexes out of bounds, which panics (`none`). -/
def accumValues : List Nat → List Nat → Option (List Nat)
  | entry, [] => some entry
  | [], _ :: _ => none
  | e :: es, v :: vs => (accumValues es vs).map (fun r => (e + v) :: r)

/-- One iteration of the grouping loop of `combine_peptide` (main.rs 185-193):
find the peptide's sequence in the accumulator, inserting a fresh all-zero
entry of length `channels` when absent (`or_insert`), accumulate the
peptide's values into it and bump the merge count. The hash map is modelled
as an association list in first-insertion order. -/
def insertPeptide (channels : Nat) : List Group → Peptide → Option (List Group)
  | [], pep =>
    (accumValues (List.replicate channels 0) pep.values).map (fun vs =>
      [{ sequence := pep.sequence, values := vs, count := 1 }])
  | g :: gs, pep =>
    if g.sequence = pep.sequence then
      (accumValues g.values pep.values).map (fun vs =>
        { sequence := g.sequence, values := vs, count := g.count + 1 } :: gs)
    else
      (insertPeptide channels gs pep).map (fun gs2 => g :: gs2)

/-- The whole grouping loop of `combine_peptide` for one protein
(main.rs 183-193): fold the protein's peptides, in order, into the
sequence-keyed accumulator. -/
def groupPeptides (channels : Nat) (peptides : List Peptide) : Option (List Group) :=
  peptides.foldl (fun acc pep => acc.bind (fun gs => insertPeptide channels gs pep)) (some [])

/-- One output row of peptide-combine mode (`combine_peptide`, main.rs 203-212).
`spec` is the merge count of the sequence group (`cnt[sequence]`); the
commented-out alternative `prot.sequence_count` is not emitted. -/
structure PeptideRow where
  accession : String
  description : String
  spec : Nat
  sequence : String
  values : List Nat
  deriving Repr, DecidableEq

/-- The channel values of one sequence-group row (main.rs 197-201): the summed
values, each divided by the group's merge count when `average` is set. -/
def groupRowValues (average : Bool) (g : Group) : Option (List Nat) :=
  if average then optionMap (fun v => cdiv v g.count) g.values
  else some g.values

/-- One emitted row of `combine_peptide` for one sequence group. -/
def groupRow (accession description : String) (average : Bool) (g : Group) : Option PeptideRow :=
  (groupRowValues average g).map (fun vs =>
    { accession := accession
      description := description
      spec := g.count
      sequence := g.sequence
      values := vs })

/-- All rows `combine_peptide` emits for one protein (main.rs 182-214). -/
def proteinPeptideRows (channels : Nat) (average : Bool) (prot : Protein) : Option (List PeptideRow) :=
  (groupPeptides channels prot.peptides).bind (fun gs =>
    optionMap (groupRow prot.accession (descEscape prot.description) average) gs)

/-- `combine_peptide` (main.rs 158-217) restricted to its data content: per
protein, in order, the rows of its sequence groups. -/
def combine_peptide (data : Dataset) (average : Bool) : Option (List PeptideRow) :=
  (optionMap (proteinPeptideRows data.channels average) data.proteins).map List.flatten

/-- The three output modes of the command line (`--protein`, `--peptide`,
`--flat`). -/
inductive Mode where
  | protein
  | peptide
  | flat
  deriving Repr, DecidableEq

/-- One input file as the per-file pipeline sees it: either it parses to a
dataset or `read_census` fails on it. -/
inductive FileInput where
  | parseError
  | parsed (data : Dataset)
  deriving Repr, DecidableEq

/-- How the processing of one file ends: an output file is written, an
`io::Error` is returned to `main`'s loop, or the process panics. -/
inductive ProcResult where
  | ok
  | ioError
  | panicked
  deriving Repr, DecidableEq

/-- Processing of one input file in one mode. `combine_protein` maps a parse
failure to an `io::Error` and returns it (main.rs 68-69); `flat_peptide` and
`combine_peptide` call `.expect("Error parsing census file!")`, which panics
(main.rs 124, 169). A panic inside aggregation (zero division, out-of-bounds
accumulation) is also `panicked`. -/
def processFile (mode : Mode) (filter : Filter) (average : Bool) : FileInput → ProcResult
  | .parseError =>
    match mode with
    | .protein => .ioError
    | .peptide => .panicked
    | .flat => .panicked
  | .parsed data =>
    let fd := filter.apply data
    match mode with
    | .protein =>
      match combine_protein fd average with
      | some _ => .ok
      | none => .panicked
    | .peptide =>
      match combine_peptide fd average with
      | some _ => .ok
      | none => .panicked
    | .flat => .ok

/-- The observable outcome for one input file of a run. -/
inductive FileOutcome where
  | written
  | reportedError
  deriving Repr, DecidableEq

/-- `main`'s file loop (main.rs 304-319): each file is processed in order; a
returned error is printed and the loop continues; a panic terminates the
process, so neither the panicking file nor any later file gets an outcome. -/
def runFiles (mode : Mode) (filter : Filter) (average : Bool) : List FileInput → List FileOutcome
  | [] => []
  | f :: fs =>
    match processFile mode filter average f with
    | .ok => .written :: runFiles mode filter average fs
    | .ioError => .reportedError :: runFiles mode filter average fs
    | .panicked => []

/-- The outcome of a whole run: whether it aborted while loading the filter
configuration, and the per-file outcomes of the loop it then ran. -/
structure MainResult where
  aborted : Bool
  outcomes : List FileOutcome
  deriving Repr, DecidableEq

/-- The filter-configuration argument as `main` sees it: absent, present and
parsing to a filter, or present and malformed. -/
inductive FilterArg where
  | absent
  | ok (f : Filter)
  | malformed
  deriving Repr, DecidableEq

/-- `main` (main.rs 288-319): a malformed filter configuration calls
`std::process::abort()` before the file loop starts (main.rs 293-299); an
absent configuration uses `Filter::default()`; otherwise the parsed filter
is used for every file. -/
def mainRun (arg : FilterArg) (mode : Mode) (average : Bool) (inputs : List FileInput) : MainResult :=
  match arg with
  | .malformed => { aborted := true, outcomes := [] }
  | .ok f => { aborted := false, outcomes := runFiles mode f average inputs }
  | .absent => { aborted := false, outcomes := runFiles mode Filter.default average inputs }

/-- The peptides of `peps` whose sequence is `s`, in order: the sequence group
of `s`. -/
def seqFilter (s : String) (peps : List Peptide) : List Peptide :=
  peps.filter (fun p => p.sequence == s)

/-- Invariant of the grouping accumulator after processing the peptide prefix
`processed`: the groups carry pairwise distinct sequences, exactly the
sequences occurring in `processed`; each group's count is the number of
processed peptides with its sequence, its vector is their element-wise sum,
and it has length `channels`. -/
def GroupsOk (channels : Nat) (processed : List Peptide) (gs : List Group) : Prop :=
  (gs.map Group.sequence).Nodup ∧
  (∀ s, s ∈ gs.map Group.sequence ↔ s ∈ processed.map Peptide.sequence) ∧
  ∀ g ∈ gs, g.values.length = channels ∧
    g.count = (seqFilter g.sequence processed).length ∧
    g.values = vecSum channels ((seqFilter g.sequence processed).map Peptide.values)

/-! ## Concrete datasets used by witnesses and counterexamples -/

/-- The protein of the spec's concrete scenario (§8): peptides `AAA [10,20]`,
`AAA [5,5]`, `BBB [100,200]` in a 2-channel dataset. -/
def P1 : Protein :=
  { accession := "P1", description := "d", spectral_count := 3, sequence_count := 2,
    peptides := [{ sequence := "AAA", values := [10, 20] },
                 { sequence := "AAA", values := [5, 5] },
                 { sequence := "BBB", values := [100, 200] }] }

/-- The spec's concrete scenario dataset: 2 channels, one protein `P1`. -/
def D1 : Dataset := { channels := 2, proteins := [P1] }

/-- A valid 2-channel dataset whose only protein has an empty peptide list. -/
def D0 : Dataset :=
  { channels := 2, proteins := [{ accession := "P0", description := "d", peptides := [] }] }

/-- A 1-channel protein with parser-supplied `spectral_count = 7` and two
peptide entries sharing the sequence `AAA`. -/
def P6 : Protein :=
  { accession := "P6", description := "d", spectral_count := 7, sequence_count := 1,
    peptides := [{ sequence := "AAA", values := [3] },
                 { sequence := "AAA", values := [5] }] }

/-- A 1-channel dataset containing only `P6`. -/
def D6 : Dataset := { channels := 1, proteins := [P6] }

/-- A trivially processable parsed file: 1 channel, one protein, one peptide. -/
def Dtriv : Dataset :=
  { channels := 1
    proteins := [{ accession := "T", description := "d",
                   peptides := [{ sequence := "A", values := [1] }] }] }

/-! ## Helper lemmas -/

theorem optionMap_eq_map {α β : Type} (f : α → Option β) (g : α → β) :
    ∀ (l : List α), (∀ a ∈ l, f a = some (g a)) → optionMap f l = some (l.map g)
  | [], _ => rfl
  | a :: l, h => by
    have ha : f a = some (g a) := h a (List.mem_cons_self a l)
    have hl := optionMap_eq_map f g l (fun x hx => h x (List.mem_cons_of_mem a hx))
    simp [optionMap, ha, hl]

theorem accumValues_eq : ∀ (entry vals : List Nat), vals.length ≤ entry.length →
    accumValues entry vals
      = some (List.zipWith (· + ·) entry vals ++ entry.drop vals.length)
  | entry, [], _ => by simp [accumValues]
  | e :: es, v :: vs, h => by
    have := accumValues_eq es vs (Nat.le_of_succ_le_succ h)
    simp [accumValues, this]

theorem accumValues_eq_zipWith (entry vals : List Nat) (h : vals.length = entry.length) :
    accumValues entry vals = some (List.zipWith (· + ·) entry vals) := by
  rw [accumValues_eq entry vals (Nat.le_of_eq h), h, List.drop_length, List.append_nil]

theorem zipWith_add_replicate_zero : ∀ (vals : List Nat),
    List.zipWith (· + ·) (List.replicate vals.length 0) vals = vals
  | [] => rfl
  | v :: vs => by simp [List.replicate_succ, zipWith_add_replicate_zero vs]

theorem vecSum_foldl_length : ∀ (vss : List (List Nat)) (acc : List Nat) (c : Nat),
    acc.length = c → (∀ vs ∈ vss, vs.length = c) →
    (vss.foldl (fun a vs => List.zipWith (· + ·) a vs) acc).length = c
  | [], acc, c, hacc, _ => hacc
  | vs :: vss, acc, c, hacc, h => by
    have hvs : vs.length = c := h vs (List.mem_cons_self vs vss)
    refine vecSum_foldl_length vss _ c ?_ (fun w hw => h w (List.mem_cons_of_mem vs hw))
    simp [List.length_zipWith, hacc, hvs]

theorem vecSum_length (c : Nat) (vss : List (List Nat)) (h : ∀ vs ∈ vss, vs.length = c) :
    (vecSum c vss).length = c :=
  vecSum_foldl_length vss _ c (List.length_replicate c 0) h

theorem vecSum_append_single (c : Nat) (vss : List (List Nat)) (vs : List Nat) :
    vecSum c (vss ++ [vs]) = List.zipWith (· + ·) (vecSum c vss) vs := by
  simp [vecSum, List.foldl_append]

theorem vecSum_singleton (c : Nat) (vs : List Nat) (h : vs.length = c) :
    vecSum c [vs] = vs := by
  have := zipWith_add_replicate_zero vs
  simp only [vecSum, List.foldl_cons, List.foldl_nil, h] at *
  exact this

theorem insertPeptide_not_mem (c : Nat) (pep : Peptide) (gs : List Group)
    (h : pep.sequence ∉ gs.map Group.sequence) :
    insertPeptide c gs pep
      = (accumValues (List.replicate c 0) pep.values).map
          (fun vs => gs ++ [{ sequence := pep.sequence, values := vs, count := 1 }]) := by
  induction gs with
  | nil =>
    simp [insertPeptide]
  | cons g gs ih =>
    simp only [List.map_cons, List.mem_cons] at h
    push_neg at h
    obtain ⟨h1, h2⟩ := h
    have hne : ¬ (g.sequence = pep.sequence) := fun e => h1 e.symm
    simp only [insertPeptide, if_neg hne, ih h2]
    cases accumValues (List.replicate c 0) pep.values <;> simp

theorem insertPeptide_found (c : Nat) (pep : Peptide) (g : Group) (gs₂ : List Group) :
    ∀ (gs₁ : List Group), pep.sequence ∉ gs₁.map Group.sequence → g.sequence = pep.sequence →
    insertPeptide c (gs₁ ++ g :: gs₂) pep
      = (accumValues g.values pep.values).map
          (fun vs => gs₁ ++ { sequence := g.sequence, values := vs, count := g.count + 1 } :: gs₂)
  | [], _, hg => by
    simp only [List.nil_append, insertPeptide, if_pos hg]
  | h :: gs₁, hmem, hg => by
    simp only [List.map_cons, List.mem_cons] at hmem
    push_neg at hmem
    obtain ⟨h1, h2⟩ := hmem
    have hne : ¬ (h.sequence = pep.sequence) := fun e => h1 e.symm
    have ih := insertPeptide_found c pep g gs₂ gs₁ h2 hg
    simp only [List.cons_append, insertPeptide, if_neg hne]
    cases hacc : accumValues g.values pep.values <;> simp [ih, hacc]

theorem seqFilter_append_single (s : String) (l : List Peptide) (p : Peptide) :
    seqFilter s (l ++ [p]) = seqFilter s l ++ (if p.sequence = s then [p] else []) := by
  simp only [seqFilter, List.filter_append, List.filter]
  by_cases h : p.sequence = s
  · simp [h]
  · have hb : (p.sequence == s) = false := beq_eq_false_iff_ne.2 h
    simp [h, hb]

theorem seqFilter_eq_nil (s : String) (l : List Peptide)
    (h : s ∉ l.map Peptide.sequence) : seqFilter s l = [] := by
  rw [seqFilter, List.filter_eq_nil_iff]
  intro p hp
  simp only [beq_iff_eq]
  intro e
  exact h (e ▸ List.mem_map_of_mem Peptide.sequence hp)

theorem groupsOk_insert (channels : Nat) (processed : List Peptide) (gs : List Group)
    (pep : Peptide) (hok : GroupsOk channels processed gs)
    (hlen : pep.values.length = channels) :
    ∃ gs2, insertPeptide channels gs pep = some gs2 ∧
      GroupsOk channels (processed ++ [pep]) gs2 := by
  obtain ⟨hnd, hmem, hg⟩ := hok
  by_cases hin : pep.sequence ∈ gs.map Group.sequence
  · -- the sequence already has a group: it is updated in place
    obtain ⟨g, hgmem, hgseq⟩ := List.mem_map.1 hin
    obtain ⟨gs₁, gs₂, rfl⟩ := List.append_of_mem hgmem
    have hmapeq : (gs₁ ++ g :: gs₂).map Group.sequence
        = gs₁.map Group.sequence ++ g.sequence :: gs₂.map Group.sequence := by simp
    have hnd' := hmapeq ▸ hnd
    have hdisj := (List.nodup_append.1 hnd').2.2
    have hg1 : g.sequence ∉ gs₁.map Group.sequence := by
      intro hmem1
      exact hdisj hmem1 (List.mem_cons_self _ _)
    have hndc : (g.sequence :: gs₂.map Group.sequence).Nodup := (List.nodup_append.1 hnd').2.1
    have hg2 : g.sequence ∉ gs₂.map Group.sequence := (List.nodup_cons.1 hndc).1
    obtain ⟨glen, gcnt, gval⟩ := hg g hgmem
    have hacc := accumValues_eq_zipWith g.values pep.values (hlen.trans glen.symm)
    set w := List.zipWith (· + ·) g.values pep.values with hw
    have hwlen : w.length = channels := by
      simp [hw, List.length_zipWith, glen, hlen]
    refine ⟨gs₁ ++ { sequence := g.sequence, values := w, count := g.count + 1 } :: gs₂, ?_, ?_, ?_, ?_⟩
    · rw [insertPeptide_found channels pep g gs₂ gs₁ (hgseq ▸ hg1) hgseq, hacc]
      rfl
    · -- sequences unchanged, so still pairwise distinct
      have : (gs₁ ++ { sequence := g.sequence, values := w, count := g.count + 1 } :: gs₂).map Group.sequence
          = (gs₁ ++ g :: gs₂).map Group.sequence := by simp
      rw [this]
      exact hnd
    · -- same sequence set: pep.sequence already occurs in processed
      intro s
      have hpin : pep.sequence ∈ processed.map Peptide.sequence := (hmem _).1 hin
      have : (gs₁ ++ { sequence := g.sequence, values := w, count := g.count + 1 } :: gs₂).map Group.sequence
          = (gs₁ ++ g :: gs₂).map Group.sequence := by simp
      rw [this, hmem s, List.map_append, List.mem_append]
      constructor
      · intro h; exact Or.inl h
      · rintro (h | h)
        · exact h
        · simp only [List.map_cons, List.map_nil, List.mem_singleton] at h
          exact h ▸ hpin
    · intro h hmemh
      rcases List.mem_append.1 hmemh with hh | hh
      · -- an earlier group: untouched, and its sequence differs from pep's
        have hne : h.sequence ≠ pep.sequence := by
          intro e
          exact hg1 (hgseq ▸ e ▸ List.mem_map_of_mem Group.sequence hh)
        have hfu : seqFilter h.sequence (processed ++ [pep]) = seqFilter h.sequence processed := by
          rw [seqFilter_append_single, if_neg (fun e => hne e.symm), List.append_nil]
        obtain ⟨l1, c1, v1⟩ := hg h (List.mem_append.2 (Or.inl hh))
        exact ⟨l1, by rw [hfu]; exact c1, by rw [hfu]; exact v1⟩
      · rcases List.mem_cons.1 hh with hh | hh
        · -- the updated group
          subst hh
          have hfu : seqFilter g.sequence (processed ++ [pep])
              = seqFilter g.sequence processed ++ [pep] := by
            rw [seqFilter_append_single, if_pos hgseq.symm]
          refine ⟨hwlen, ?_, ?_⟩
          · simp [hfu, gcnt]
          · simp only [hfu, List.map_append, List.map_cons, List.map_nil]
            rw [vecSum_append_single, ← gval, hw]
        · -- a later group: untouched
          have hne : h.sequence ≠ pep.sequence := by
            intro e
            exact hg2 (hgseq ▸ e ▸ List.mem_map_of_mem Group.sequence hh)
          have hfu : seqFilter h.sequence (processed ++ [pep]) = seqFilter h.sequence processed := by
            rw [seqFilter_append_single, if_neg (fun e => hne e.symm), List.append_nil]
          obtain ⟨l1, c1, v1⟩ := hg h (List.mem_append.2 (Or.inr (List.mem_cons_of_mem g hh)))
          exact ⟨l1, by rw [hfu]; exact c1, by rw [hfu]; exact v1⟩
  · -- a new sequence: a fresh group is appended
    have hacc := accumValues_eq_zipWith (List.replicate channels 0) pep.values
      (by simp [hlen])
    have hzip : List.zipWith (· + ·) (List.replicate channels 0) pep.values = pep.values := by
      conv_lhs => rw [← hlen]
      exact zipWith_add_replicate_zero pep.values
    have hnotin : pep.sequence ∉ processed.map Peptide.sequence := fun hp => hin ((hmem _).2 hp)
    have hfilnil : seqFilter pep.sequence processed = [] := seqFilter_eq_nil _ _ hnotin
    have hfil : seqFilter pep.sequence (processed ++ [pep]) = [pep] := by
      rw [seqFilter_append_single, if_pos rfl, hfilnil, List.nil_append]
    refine ⟨gs ++ [{ sequence := pep.sequence, values := pep.values, count := 1 }], ?_, ?_, ?_, ?_⟩
    · rw [insertPeptide_not_mem channels pep gs hin, hacc, hzip]
      rfl
    · rw [List.map_append]
      refine List.Nodup.append hnd (by simp) ?_
      intro s hs1 hs2
      simp only [List.map_cons, List.map_nil, List.mem_singleton] at hs2
      exact hin (hs2 ▸ hs1)
    · intro s
      rw [List.map_append, List.mem_append, hmem s, List.map_append, List.mem_append]
      simp
    · intro h hmemh
      rcases List.mem_append.1 hmemh with hh | hh
      · have hne : h.sequence ≠ pep.sequence := by
          intro e
          exact hin (e ▸ List.mem_map_of_mem Group.sequence hh)
        have hfu : seqFilter h.sequence (processed ++ [pep]) = seqFilter h.sequence processed := by
          rw [seqFilter_append_single, if_neg (fun e => hne e.symm), List.append_nil]
        obtain ⟨l1, c1, v1⟩ := hg h hh
        exact ⟨l1, by rw [hfu]; exact c1, by rw [hfu]; exact v1⟩
      · simp only [List.mem_singleton] at hh
        subst hh
        refine ⟨hlen, by simp [hfil], ?_⟩
        simp only [hfil, List.map_cons, List.map_nil]
        rw [vecSum_singleton channels pep.values hlen]

theorem groupFold_ok (channels : Nat) : ∀ (rest processed : List Peptide) (gs : List Group),
    GroupsOk channels processed gs → (∀ p ∈ rest, p.values.length = channels) →
    ∃ gs2, rest.foldl (fun acc pep => acc.bind (fun gs => insertPeptide channels gs pep)) (some gs)
        = some gs2 ∧ GroupsOk channels (processed ++ rest) gs2
  | [], processed, gs, hok, _ => ⟨gs, rfl, by simpa using hok⟩
  | pep :: rest, processed, gs, hok, h => by
    obtain ⟨gs1, hins, hok1⟩ :=
      groupsOk_insert channels processed gs pep hok (h pep (List.mem_cons_self pep rest))
    obtain ⟨gs2, hfold, hok2⟩ :=
      groupFold_ok channels rest (processed ++ [pep]) gs1 hok1
        (fun p hp => h p (List.mem_cons_of_mem pep hp))
    refine ⟨gs2, ?_, ?_⟩
    · rw [List.foldl_cons]
      simpa [hins] using hfold
    · rw [List.append_assoc, List.singleton_append] at hok2
      exact hok2

/-- Correctness of the grouping loop of `combine_peptide`: under the dataset
invariant it succeeds, and the resulting groups partition the peptide list by
sequence, with counts and element-wise sums as stated. -/
theorem groupPeptides_ok (channels : Nat) (peps : List Peptide)
    (h : ∀ p ∈ peps, p.values.length = channels) :
    ∃ gs, groupPeptides channels peps = some gs ∧ GroupsOk channels peps gs := by
  have h0 : GroupsOk channels [] [] := by
    refine ⟨List.nodup_nil, fun s => by simp, by simp⟩
  obtain ⟨gs, hf, hok⟩ := groupFold_ok channels peps [] [] h0 h
  exact ⟨gs, hf, by simpa using hok⟩

theorem optionMap_cdiv (k : Nat) (hk : k ≠ 0) (l : List Nat) :
    optionMap (fun v => cdiv v k) l = some (l.map (fun v => v / k)) :=
  optionMap_eq_map _ _ l (fun a _ => by simp [cdiv, hk])

theorem optionMap_exists {α β : Type} (P : β → Prop) (f : α → Option β) :
    ∀ (l : List α), (∀ a ∈ l, ∃ b, f a = some b ∧ P b) →
    ∃ bs, optionMap f l = some bs ∧ ∀ b ∈ bs, P b
  | [], _ => ⟨[], rfl, by simp⟩
  | a :: l, h => by
    obtain ⟨b, hb, hPb⟩ := h a (List.mem_cons_self a l)
    obtain ⟨bs, hbs, hP⟩ :=
      optionMap_exists P f l (fun x hx => h x (List.mem_cons_of_mem a hx))
    refine ⟨b :: bs, by simp [optionMap, hb, hbs], ?_⟩
    intro c hc
    rcases List.mem_cons.1 hc with hc | hc
    · exact hc ▸ hPb
    · exact hP c hc

theorem groupsOk_count_pos {channels : Nat} {peps : List Peptide} {gs : List Group}
    (hok : GroupsOk channels peps gs) : ∀ g ∈ gs, g.count ≠ 0 := by
  obtain ⟨_, hmem, hg⟩ := hok
  intro g hgmem
  obtain ⟨_, gcnt, _⟩ := hg g hgmem
  have hseq : g.sequence ∈ peps.map Peptide.sequence :=
    (hmem g.sequence).1 (List.mem_map_of_mem Group.sequence hgmem)
  obtain ⟨p, hp, hpe⟩ := List.mem_map.1 hseq
  have hpf : p ∈ seqFilter g.sequence peps :=
    List.mem_filter.2 ⟨hp, by simp [hpe]⟩
  rw [gcnt]
  exact Nat.pos_iff_ne_zero.1 (List.length_pos.2 (List.ne_nil_of_mem hpf))

/-- The row emitted for one group, once the merge count is known nonzero:
the summed values, divided by the count when `average` is set. -/
theorem groupRow_eq (a d : String) (average : Bool) (g : Group) (hcnt : g.count ≠ 0) :
    groupRow a d average g
      = some { accession := a, description := d, spec := g.count, sequence := g.sequence,
               values := if average then g.values.map (fun v => v / g.count) else g.values } := by
  cases average with
  | false => rfl
  | true => simp [groupRow, groupRowValues, optionMap_cdiv g.count hcnt]

/-- The per-protein rows of `combine_peptide`, under the dataset invariant:
grouping succeeds and each group yields exactly one row carrying its merge
count, its sequence and its (possibly averaged) summed values. -/
theorem proteinPeptideRows_eq (channels : Nat) (average : Bool) (prot : Protein)
    (h : ∀ pep ∈ prot.peptides, pep.values.length = channels) :
    ∃ gs, groupPeptides channels prot.peptides = some gs ∧
      GroupsOk channels prot.peptides gs ∧
      proteinPeptideRows channels average prot
        = some (gs.map (fun g =>
            { accession := prot.accession, description := descEscape prot.description,
              spec := g.count, sequence := g.sequence,
              values := if average then g.values.map (fun v => v / g.count) else g.values })) := by
  obtain ⟨gs, hgs, hok⟩ := groupPeptides_ok channels prot.peptides h
  refine ⟨gs, hgs, hok, ?_⟩
  rw [proteinPeptideRows, hgs]
  exact optionMap_eq_map _ _ gs
    (fun g hg => groupRow_eq _ _ average g (groupsOk_count_pos hok g hg))

theorem sum_map_add {M : Type} [AddCommMonoid M] {α : Type} (l : List α) (f g : α → M) :
    (l.map (fun a => f a + g a)).sum = (l.map f).sum + (l.map g).sum := by
  induction l with
  | nil => simp
  | cons a l ih =>
    simp only [List.map_cons, List.sum_cons, ih]
    abel

theorem sum_map_zero_of_not_mem {M : Type} [AddCommMonoid M] (t : String) (x : M)
    (ss : List String) (h : t ∉ ss) :
    (ss.map (fun s => if t = s then x else 0)).sum = 0 := by
  rw [List.sum_eq_zero]
  intro y hy
  obtain ⟨s, hs, rfl⟩ := List.mem_map.1 hy
  exact if_neg (fun e => h (by rw [e]; exact hs))

theorem sum_map_single {M : Type} [AddCommMonoid M] (t : String) (x : M) :
    ∀ (ss : List String), ss.Nodup → t ∈ ss →
    (ss.map (fun s => if t = s then x else 0)).sum = x
  | [], _, hm => absurd hm (List.not_mem_nil t)
  | s :: ss, hnd, hm => by
    by_cases h : t = s
    · subst h
      have hnot : t ∉ ss := (List.nodup_cons.1 hnd).1
      simp [sum_map_zero_of_not_mem t x ss hnot]
    · have hm2 : t ∈ ss := (List.mem_cons.1 hm).resolve_left h
      simp [h, sum_map_single t x ss (List.nodup_cons.1 hnd).2 hm2]

/-- Summing any additive quantity group-by-group over a duplicate-free list of
sequences covering a peptide list gives the same result as summing it over
the whole list: the sequence groups partition the peptides. -/
theorem sum_groups {M : Type} [AddCommMonoid M] (ss : List String) (hnd : ss.Nodup)
    (f : Peptide → M) :
    ∀ (peps : List Peptide), (∀ p ∈ peps, p.sequence ∈ ss) →
    (ss.map (fun s => ((seqFilter s peps).map f).sum)).sum = (peps.map f).sum
  | [], _ => by
    rw [List.sum_eq_zero]
    · simp
    · intro y hy
      obtain ⟨s, _, rfl⟩ := List.mem_map.1 hy
      simp [seqFilter]
  | p :: peps, hc => by
    have hstep : ∀ s, ((seqFilter s (p :: peps)).map f).sum
        = (if p.sequence = s then f p else 0) + ((seqFilter s peps).map f).sum := by
      intro s
      by_cases h : p.sequence = s
      · simp [seqFilter, List.filter_cons, h]
      · have hb : (p.sequence == s) = false := beq_eq_false_iff_ne.2 h
        simp [seqFilter, List.filter_cons, hb, h]
    calc (ss.map (fun s => ((seqFilter s (p :: peps)).map f).sum)).sum
        = (ss.map (fun s =>
            (if p.sequence = s then f p else 0) + ((seqFilter s peps).map f).sum)).sum := by
          exact congrArg List.sum (List.map_congr_left (fun s _ => hstep s))
      _ = (ss.map (fun s => if p.sequence = s then f p else 0)).sum
            + (ss.map (fun s => ((seqFilter s peps).map f).sum)).sum :=
          sum_map_add ss _ _
      _ = f p + (peps.map f).sum := by
          rw [sum_map_single p.sequence (f p) ss hnd (hc p (List.mem_cons_self p peps)),
            sum_groups ss hnd f peps (fun q hq => hc q (List.mem_cons_of_mem p hq))]
      _ = ((p :: peps).map f).sum := by simp

theorem sum_map_ones {α : Type} (l : List α) : (l.map (fun _ => (1 : Nat))).sum = l.length := by
  induction l with
  | nil => rfl
  | cons a l ih => simp [ih, Nat.add_comm]

theorem sum_map_singleton {α : Type} (l : List α) :
    (l.map (fun a => ({a} : Multiset α))).sum = (l : Multiset α) := by
  induction l with
  | nil => rfl
  | cons a l ih => simp [ih]

/-- An empty filter configuration is the identity transform on datasets. -/
theorem filter_default_apply (data : Dataset) : Filter.default.apply data = data := by
  cases data with
  | mk channels proteins =>
    simp only [Filter.apply, Filter.default, List.all_nil, List.filter_true]
    have h : (fun (prot : Protein) => { prot with peptides := prot.peptides }) = id := by
      funext prot
      rfl
    rw [h, List.map_id]

/-! ## Claims -/

/-- Claim C1: in protein-combine mode, when every protein of the (filtered)
dataset has k ≥ 1 retained peptides, the row emitted for a protein carries,
with `average = true`, the element-wise sum of its peptide value vectors
(`Protein.total`) divided element-wise by k using truncating unsigned-integer
(`Nat`) division, and with `average = false` the raw sums. -/
theorem C1_protein_average_divides_total (data : Dataset)
    (h : ∀ prot ∈ data.proteins, 1 ≤ prot.peptides.length) :
    combine_protein data true
      = some (data.proteins.map (fun prot =>
          { accession := prot.accession, description := descEscape prot.description,
            spectral_count := prot.spectral_count, sequence_count := prot.sequence_count,
            values := (Protein.total data.channels prot).map
              (fun v => v / prot.peptides.length) }))
    ∧ combine_protein data false
      = some (data.proteins.map (fun prot =>
          { accession := prot.accession, description := descEscape prot.description,
            spectral_count := prot.spectral_count, sequence_count := prot.sequence_count,
            values := Protein.total data.channels prot })) := by
  constructor
  · apply optionMap_eq_map
    intro prot hp
    have hk : prot.peptides.length ≠ 0 := by
      have := h prot hp
      omega
    simp [proteinRowValues, optionMap_cdiv _ hk]
  · apply optionMap_eq_map
    intro prot hp
    simp [proteinRowValues]

/-- Witness for C1: on the spec's concrete dataset (one protein, peptides
`[10,20]`, `[5,5]`, `[100,200]`, no filters), average mode yields channel
values `38, 75` and sum mode `115, 225`. -/
theorem C1_witness :
    (combine_protein D1 true).map (fun rows => rows.map ProteinRow.values) = some [[38, 75]]
    ∧ (combine_protein D1 false).map (fun rows => rows.map ProteinRow.values)
        = some [[115, 225]] := by
  have h := C1_protein_average_divides_total D1 (by decide)
  refine ⟨?_, ?_⟩
  · rw [h.1]
    rfl
  · rw [h.2]
    rfl

/-- Claim C3: flat mode emits exactly one row per retained peptide across all
proteins (duplicate sequences included), each row carries the peptide's raw
values and sequence, and the output does not depend on the `average` flag. -/
theorem C3_flat_mode_one_row_per_peptide (data : Dataset) (average : Bool) :
    flat_peptide data average = flat_peptide data false
    ∧ (flat_peptide data average).length
        = (data.proteins.map (fun prot => prot.peptides.length)).sum
    ∧ (flat_peptide data average).map FlatRow.values
        = (data.proteins.map (fun prot => prot.peptides.map Peptide.values)).flatten
    ∧ (flat_peptide data average).map FlatRow.sequence
        = (data.proteins.map (fun prot => prot.peptides.map Peptide.sequence)).flatten := by
  refine ⟨rfl, ?_, ?_, ?_⟩
  · simp only [flat_peptide, List.length_flatten, List.map_map]
    refine congrArg List.sum (List.map_congr_left (fun prot _ => ?_))
    simp [Function.comp]
  · simp only [flat_peptide, List.map_flatten, List.map_map]
    refine congrArg List.flatten (List.map_congr_left (fun prot _ => ?_))
    simp only [Function.comp_apply, List.map_map]
    rfl
  · simp only [flat_peptide, List.map_flatten, List.map_map]
    refine congrArg List.flatten (List.map_congr_left (fun prot _ => ?_))
    simp only [Function.comp_apply, List.map_map]
    rfl

/-- Claim C8: a malformed filter configuration aborts the whole run before any
input file is processed — no per-file outcome is produced for any input, in
any mode. -/
theorem C8_malformed_filter_aborts (mode : Mode) (average : Bool) (inputs : List FileInput) :
    mainRun FilterArg.malformed mode average inputs = { aborted := true, outcomes := [] } :=
  rfl

/-- Claim C9: applying the default `Filter` (empty peptide- and protein-filter
rule sets) is the identity transform: the channel count, protein count,
per-protein peptide counts and all channel values are unchanged. -/
theorem C9_default_filter_identity (data : Dataset) :
    (Filter.default.apply data).channels = data.channels
    ∧ (Filter.default.apply data).proteins.length = data.proteins.length
    ∧ ((Filter.default.apply data).proteins.map (fun prot => prot.peptides.length))
        = data.proteins.map (fun prot => prot.peptides.length)
    ∧ ((Filter.default.apply data).proteins.map (fun prot => prot.peptides.map Peptide.values))
        = data.proteins.map (fun prot => prot.peptides.map Peptide.values) := by
  rw [filter_default_apply]
  exact ⟨rfl, rfl, rfl, rfl⟩

/-- Claim C2: for every protein (under the dataset invariant), peptide-combine
mode emits exactly one row per distinct peptide sequence of its retained
peptide list — the group sequences are pairwise distinct and are exactly the
sequences occurring in the list — and the row of a group carries `spec` = the
number of entries merged into it, with channel fields the element-wise sum of
the group's value vectors, divided by `spec` when `average` is set. Grouping
is performed per protein, so sequences shared across proteins are grouped
independently (`combine_peptide` concatenates the per-protein rows). -/
theorem C2_peptide_combine_groups_by_sequence (channels : Nat) (average : Bool) (prot : Protein)
    (h : ∀ pep ∈ prot.peptides, pep.values.length = channels) :
    ∃ gs, groupPeptides channels prot.peptides = some gs
      ∧ proteinPeptideRows channels average prot
          = some (gs.map (fun g =>
              { accession := prot.accession, description := descEscape prot.description,
                spec := g.count, sequence := g.sequence,
                values := if average then g.values.map (fun v => v / g.count) else g.values }))
      ∧ (gs.map Group.sequence).Nodup
      ∧ (∀ s, s ∈ gs.map Group.sequence ↔ s ∈ prot.peptides.map Peptide.sequence)
      ∧ ∀ g ∈ gs, g.count = (seqFilter g.sequence prot.peptides).length
          ∧ g.values = vecSum channels ((seqFilter g.sequence prot.peptides).map Peptide.values) := by
  obtain ⟨gs, hgs, hok, hrows⟩ := proteinPeptideRows_eq channels average prot h
  obtain ⟨hnd, hmem, hg⟩ := hok
  exact ⟨gs, hgs, hrows, hnd, hmem, fun g hgm => ⟨(hg g hgm).2.1, (hg g hgm).2.2⟩⟩

/-- Witness for C2: on the concrete protein with peptides `AAA`, `AAA`, `BBB`
the grouping succeeds, group sequences are distinct and are exactly
`AAA` and `BBB`. -/
theorem C2_witness :
    ∃ gs, groupPeptides 2 P1.peptides = some gs
      ∧ (gs.map Group.sequence).Nodup
      ∧ ∀ s, s ∈ gs.map Group.sequence ↔ s ∈ P1.peptides.map Peptide.sequence := by
  obtain ⟨gs, h1, _, h3, h4, _⟩ := C2_peptide_combine_groups_by_sequence 2 true P1 (by decide)
  exact ⟨gs, h1, h3, h4⟩

/-- Counterexample for C4 as stated: a valid dataset whose only protein has an
empty peptide list passes the default filter unchanged and reaches
`combine_protein`; in average mode the division by `prot.peptides.len() = 0`
is executed (a Rust panic, modelled `none`) — there is neither a nonzero
divisor for the protein's row nor a defined fallback. -/
theorem C4_counterexample :
    combine_protein (Filter.default.apply D0) true = none
    ∧ (Filter.default.apply D0).proteins.length = 1 :=
  ⟨rfl, rfl⟩

/-- Claim C4 (amended): peptide-combine average mode never divides by zero —
every group's merge count is nonzero; protein-combine mode emits rows without
any division by zero whenever every protein of the dataset has at least one
retained peptide (the code has no fallback for a protein with none: that case
panics, as the counterexample shows). -/
theorem C4_no_zero_division :
    (∀ (data : Dataset) (average : Bool),
        (∀ prot ∈ data.proteins, prot.peptides.length ≠ 0) →
        ∃ rows, combine_protein data average = some rows)
    ∧ ∀ (channels : Nat) (peps : List Peptide),
        (∀ p ∈ peps, p.values.length = channels) →
        ∃ gs, groupPeptides channels peps = some gs ∧ ∀ g ∈ gs, g.count ≠ 0 := by
  constructor
  · intro data average h
    have hper : ∀ prot ∈ data.proteins,
        ∃ row, (proteinRowValues data.channels average prot).map (fun vs =>
          ({ accession := prot.accession, description := descEscape prot.description,
             spectral_count := prot.spectral_count, sequence_count := prot.sequence_count,
             values := vs } : ProteinRow)) = some row ∧ True := by
      intro prot hp
      have hvs : ∃ vs, proteinRowValues data.channels average prot = some vs := by
        cases average with
        | false => exact ⟨Protein.total data.channels prot, rfl⟩
        | true =>
          exact ⟨(Protein.total data.channels prot).map (fun v => v / prot.peptides.length),
            by simp [proteinRowValues, optionMap_cdiv _ (h prot hp)]⟩
      obtain ⟨vs, hvs⟩ := hvs
      exact ⟨{ accession := prot.accession, description := descEscape prot.description,
               spectral_count := prot.spectral_count, sequence_count := prot.sequence_count,
               values := vs }, by rw [hvs]; rfl, trivial⟩
    obtain ⟨rows, heq, -⟩ := optionMap_exists _ _ data.proteins hper
    exact ⟨rows, heq⟩
  · intro channels peps h
    obtain ⟨gs, hgs, hok⟩ := groupPeptides_ok channels peps h
    exact ⟨gs, hgs, groupsOk_count_pos hok⟩

/-- Witness for C4 (amended): on the concrete dataset every protein has
peptides, so protein-combine average mode emits rows, and every sequence
group of the concrete protein has a nonzero merge count. -/
theorem C4_witness :
    (∃ rows, combine_protein D1 true = some rows)
    ∧ ∃ gs, groupPeptides 2 P1.peptides = some gs ∧ ∀ g ∈ gs, g.count ≠ 0 :=
  ⟨C4_no_zero_division.1 D1 true (by decide), C4_no_zero_division.2 2 P1.peptides (by decide)⟩

/-- Counterexample for C5 as stated: in peptide-combine mode a parse failure
of the first file terminates the whole run (the `expect` panics), so the
second, well-formed file is never processed — the claim would require two
per-file outcomes. -/
theorem C5_counterexample :
    (runFiles Mode.peptide Filter.default false
      [FileInput.parseError, FileInput.parsed Dtriv]).length ≠ 2 := by
  decide

/-- Claim C5 (amended): only in protein-combine mode is a parse failure
reported for that file alone, with processing continuing on the remaining
files; in peptide-combine and flat modes a parse failure panics and
terminates the run, so no file receives an outcome from that point on. -/
theorem C5_parse_failure_per_mode (filter : Filter) (average : Bool) (rest : List FileInput) :
    runFiles Mode.protein filter average (FileInput.parseError :: rest)
      = FileOutcome.reportedError :: runFiles Mode.protein filter average rest
    ∧ runFiles Mode.peptide filter average (FileInput.parseError :: rest) = []
    ∧ runFiles Mode.flat filter average (FileInput.parseError :: rest) = [] := by
  refine ⟨?_, ?_, ?_⟩ <;> rfl

/-- Counterexample for C6 as stated: on a protein with parser-supplied
`spectral_count = 7` and two merged entries for its only sequence group, the
emitted spectral-count column is `2`; `combine_peptide` takes no
configuration besides `average`, so the claimed caller-selectable variant
showing the protein's original `spectral_count` (`7`) is not obtainable. -/
theorem C6_counterexample :
    (combine_peptide D6 false).map (fun rows => rows.map PeptideRow.spec) = some [2]
    ∧ P6.spectral_count = 7 :=
  ⟨rfl, rfl⟩

/-- Claim C6 (amended): in peptide-combine mode the spectral-count column of
each sequence-group row is always the count of peptide entries merged into
that group (per protein, post filter); the protein-level `sequence_count`
alternative exists only as a commented-out line and is not selectable by the
caller. -/
theorem C6_spec_column_is_merge_count (channels : Nat) (average : Bool) (prot : Protein)
    (h : ∀ pep ∈ prot.peptides, pep.values.length = channels) :
    ∃ gs rows, groupPeptides channels prot.peptides = some gs
      ∧ proteinPeptideRows channels average prot = some rows
      ∧ rows.map PeptideRow.spec = gs.map Group.count
      ∧ ∀ g ∈ gs, g.count = (seqFilter g.sequence prot.peptides).length := by
  obtain ⟨gs, hgs, hok, hrows⟩ := proteinPeptideRows_eq channels average prot h
  refine ⟨gs, _, hgs, hrows, ?_, fun g hgm => (hok.2.2 g hgm).2.1⟩
  rw [List.map_map]
  rfl

/-- Witness for C6 (amended): concrete instantiation on the two-entry protein:
the emitted spec column equals the merge counts. -/
theorem C6_witness :
    ∃ gs rows, groupPeptides 1 P6.peptides = some gs
      ∧ proteinPeptideRows 1 false P6 = some rows
      ∧ rows.map PeptideRow.spec = gs.map Group.count := by
  obtain ⟨gs, rows, h1, h2, h3, _⟩ := C6_spec_column_is_merge_count 1 false P6 (by decide)
  exact ⟨gs, rows, h1, h2, h3⟩

/-- Claim C7: the sequence groups of a protein partition its retained peptide
list — each group appears once, the multiset union of the groups'
contributing entries is exactly the retained list (nothing dropped, nothing
double-counted), and the groups' merge counts sum to the number of retained
peptides. -/
theorem C7_groups_partition_peptides (channels : Nat) (prot : Protein)
    (h : ∀ pep ∈ prot.peptides, pep.values.length = channels) :
    ∃ gs, groupPeptides channels prot.peptides = some gs
      ∧ (gs.map Group.sequence).Nodup
      ∧ (gs.map (fun g =>
            ((seqFilter g.sequence prot.peptides : List Peptide) : Multiset Peptide))).sum
          = (prot.peptides : Multiset Peptide)
      ∧ (gs.map Group.count).sum = prot.peptides.length := by
  obtain ⟨gs, hgs, hok⟩ := groupPeptides_ok channels prot.peptides h
  obtain ⟨hnd, hmem, hg⟩ := hok
  have hcov : ∀ p ∈ prot.peptides, p.sequence ∈ gs.map Group.sequence :=
    fun p hp => (hmem p.sequence).2 (List.mem_map_of_mem Peptide.sequence hp)
  refine ⟨gs, hgs, hnd, ?_, ?_⟩
  · have key := sum_groups (gs.map Group.sequence) hnd
      (fun p => ({p} : Multiset Peptide)) prot.peptides hcov
    rw [List.map_map] at key
    calc (gs.map (fun g =>
            ((seqFilter g.sequence prot.peptides : List Peptide) : Multiset Peptide))).sum
        = (gs.map (fun g =>
            ((seqFilter g.sequence prot.peptides).map
              (fun p => ({p} : Multiset Peptide))).sum)).sum :=
          congrArg List.sum (List.map_congr_left (fun g _ => (sum_map_singleton _).symm))
      _ = (prot.peptides.map (fun p => ({p} : Multiset Peptide))).sum := key
      _ = (prot.peptides : Multiset Peptide) := sum_map_singleton prot.peptides
  · have key := sum_groups (gs.map Group.sequence) hnd
      (fun _ => (1 : Nat)) prot.peptides hcov
    rw [List.map_map] at key
    calc (gs.map Group.count).sum
        = (gs.map (fun g =>
            ((seqFilter g.sequence prot.peptides).map (fun _ => (1 : Nat))).sum)).sum := by
          refine congrArg List.sum (List.map_congr_left (fun g hgm => ?_))
          rw [(hg g hgm).2.1, ← sum_map_ones]
      _ = (prot.peptides.map (fun _ => (1 : Nat))).sum := key
      _ = prot.peptides.length := sum_map_ones prot.peptides

/-- Witness for C7: on the concrete protein, the merge counts of the two
groups sum to its three retained peptides. -/
theorem C7_witness :
    ∃ gs, groupPeptides 2 P1.peptides = some gs
      ∧ (gs.map Group.count).sum = P1.peptides.length := by
  obtain ⟨gs, h1, _, _, h4⟩ := C7_groups_partition_peptides 2 P1 (by decide)
  exact ⟨gs, h1, h4⟩

/-- Claim C10: under the dataset invariant (every value vector has length
`channels`) the indexed accumulation of `combine_peptide` stays in bounds —
grouping never panics and every emitted row carries exactly `channels`
channel values; a peptide vector longer than the channel count (here `[1,2,3]`
against 2 channels) drives the accumulation out of bounds, which panics
(`none`). -/
theorem C10_accumulation_in_bounds :
    (∀ (data : Dataset) (average : Bool),
        (∀ prot ∈ data.proteins, ∀ pep ∈ prot.peptides, pep.values.length = data.channels) →
        ∃ rows, combine_peptide data average = some rows
          ∧ ∀ r ∈ rows, r.values.length = data.channels)
    ∧ groupPeptides 2 [{ sequence := "AAA", values := [1, 2, 3] }] = none := by
  constructor
  · intro data average h
    have hper : ∀ prot ∈ data.proteins,
        ∃ rows, proteinPeptideRows data.channels average prot = some rows
          ∧ ∀ r ∈ rows, r.values.length = data.channels := by
      intro prot hp
      obtain ⟨gs, hgs, hok, hrows⟩ :=
        proteinPeptideRows_eq data.channels average prot (h prot hp)
      refine ⟨_, hrows, ?_⟩
      intro r hrmem
      obtain ⟨g, hgm, rfl⟩ := List.mem_map.1 hrmem
      have hlen := (hok.2.2 g hgm).1
      cases average <;> simp [hlen]
    obtain ⟨rowss, hrs, hP⟩ := optionMap_exists _ _ data.proteins hper
    refine ⟨rowss.flatten, ?_, ?_⟩
    · rw [combine_peptide, hrs]
      rfl
    · intro r hr
      obtain ⟨rows, hrows, hrmem⟩ := List.mem_flatten.1 hr
      exact hP rows hrows r hrmem
  · rfl

/-- Witness for C10: on the concrete invariant-respecting dataset,
peptide-combine succeeds and every row carries exactly 2 channel values. -/
theorem C10_witness :
    ∃ rows, combine_peptide D1 true = some rows
      ∧ ∀ r ∈ rows, r.values.length = D1.channels :=
  C10_accumulation_in_bounds.1 D1 true (by decide)

end Census
